import Mathlib

/- Shallow embedding of the document-chunking and retrieval core of the
ai-wiki-search repository (backend/embedding_pipeline.py,
backend/embedding_pipeline_free.py, backend/rag_engine.py,
backend/rag_engine_free.py), together with theorems settling the frozen
claims about chunking, embedding fallback, retrieval and answer error
handling, content-hash ids and the index run. -/

namespace AiWikiSearch

/-- Python strings are modelled as lists of characters. -/
abbrev Str := List Char

/-- Embed a Lean string literal into the model type. -/
def lit (s : String) : Str := s.data

/-- Python whitespace, as stripped by str.strip(): the 29 code points on
which str.isspace() is true — ASCII whitespace, the information
separators U+001C to U+001F, NEL, NBSP and the Unicode space
separators. -/
def pyIsSpace (c : Char) : Bool :=
  c = '\x09' || c = '\x0a' || c = '\x0b' || c = '\x0c' || c = '\x0d' ||
  c = '\x1c' || c = '\x1d' || c = '\x1e' || c = '\x1f' || c = '\x20' ||
  c = '\x85' || c = '\xa0' || c = '\u1680' ||
  c = '\u2000' || c = '\u2001' || c = '\u2002' || c = '\u2003' ||
  c = '\u2004' || c = '\u2005' || c = '\u2006' || c = '\u2007' ||
  c = '\u2008' || c = '\u2009' || c = '\u200a' ||
  c = '\u2028' || c = '\u2029' || c = '\u202f' || c = '\u205f' || c = '\u3000'

/-- Python str.strip(): drop whitespace from both ends. -/
def pyStrip (s : Str) : Str :=
  ((s.dropWhile pyIsSpace).reverse.dropWhile pyIsSpace).reverse

/-- Resolve a Python slice index against a string of length len:
negative indices count from the end (clamped at 0), nonnegative ones are
clamped at len. -/
def pyResolve (len : Nat) (i : Int) : Nat :=
  if i < 0 then (len + i).toNat else min i.toNat len

/-- Python slicing s[a:b]. -/
def pySlice (s : Str) (a b : Int) : Str :=
  (s.take (pyResolve s.length b)).drop (pyResolve s.length a)

/-- Python indexing s[i]: nonnegative indices are looked up directly,
negative ones from the end; out-of-range access is an IndexError,
modelled as none. -/
def pyGet (s : Str) (i : Int) : Option Char :=
  if 0 ≤ i then s.get? i.toNat
  else if 0 ≤ i + s.length then s.get? (i + s.length).toNat
  else none

/-- The sentence-terminal characters of chunk_text: text[i] in '.!?\n'. -/
def isSentenceEnd (c : Char) : Bool :=
  c = '.' || c = '!' || c = '?' || c = '\n'

/-- The backward sentence-boundary search of chunk_text:
for i in range(end, max(start + chunk_size - 100, start), -1):
  if text[i] in '.!?\n': end = i + 1; break.
The fuel is the number of iterations of the range, i the current index.
Returns some (some e) when a boundary sets end = e, some none when the
range is exhausted without a boundary, and none on an IndexError. -/
def searchBack (text : Str) : Nat → Int → Option (Option Int)
  | 0, _ => some none
  | fuel + 1, i =>
    (pyGet text i).bind fun c =>
      if isSentenceEnd c then some (some (i + 1))
      else searchBack text fuel (i - 1)

/-- State of the chunk_text while loop: the cursor start and the chunks
accumulated so far. -/
structure ChunkState where
  start : Int
  chunks : List Str

/-- One iteration of the chunk_text while loop (embedding_pipeline.py,
lines 76-91): propose end = start + chunk_size, search backward for a
sentence boundary when end < len(text), strip the window, append it if
non-empty, and advance start to end - overlap. -/
def chunkStep (text : Str) (chunk_size overlap : Int) (st : ChunkState) :
    Option ChunkState :=
  (if st.start + chunk_size < (text.length : Int) then
     searchBack text
       ((st.start + chunk_size - max (st.start + chunk_size - 100) st.start).toNat)
       (st.start + chunk_size)
   else some none).map fun found =>
    let e := found.getD (st.start + chunk_size)
    ⟨e - overlap,
     if (pyStrip (pySlice text st.start e)).isEmpty then st.chunks
     else st.chunks ++ [pyStrip (pySlice text st.start e)]⟩

/-- The chunk_text while loop, run on fuel: loops while start < len(text);
none means the fuel ran out (the loop had not yet terminated) or an
IndexError occurred. -/
def chunkLoop (text : Str) (chunk_size overlap : Int) :
    Nat → ChunkState → Option (List Str)
  | 0, _ => none
  | fuel + 1, st =>
    if st.start < (text.length : Int) then
      (chunkStep text chunk_size overlap st).bind
        (chunkLoop text chunk_size overlap fuel)
    else some st.chunks

/-- IndexingPipeline.chunk_text (embedding_pipeline.py lines 68-93;
identical in embedding_pipeline_free.py lines 52-77): a text of length at
most chunk_size is returned whole; otherwise the sliding-window loop runs
on the given fuel. -/
def chunk_text (text : Str) (chunk_size overlap : Int) (fuel : Nat) :
    Option (List Str) :=
  if (text.length : Int) ≤ chunk_size then some [text]
  else chunkLoop text chunk_size overlap fuel ⟨0, []⟩

/-- C2: for every text whose length is at most chunk_size, chunk_text
returns exactly one element, and that element is the input text itself,
unchanged and untrimmed. -/
theorem chunk_text_short (text : Str) (cs ov : Int) (fuel : Nat)
    (h : (text.length : Int) ≤ cs) :
    chunk_text text cs ov fuel = some [text] := by
  unfold chunk_text
  rw [if_pos h]

theorem chunk_text_short_witness :
    chunk_text (lit "  hi there ") 1000 200 0 = some [lit "  hi there "] :=
  chunk_text_short (lit "  hi there ") 1000 200 0 (by decide)

/-- The input on which the chunk_text loop stalls forever although
overlap < chunk_size: with chunk_size = 10 and overlap = 5, the boundary
search finds the period at index 4, sets end = 5, and start stays
5 - 5 = 0 on every iteration. -/
def stallText : Str := lit "abcd.fghijklmnop"

lemma chunkStep_stall (ch : List Str) :
    chunkStep stallText 10 5 ⟨0, ch⟩ = some ⟨0, ch ++ [lit "abcd."]⟩ := rfl

lemma chunkLoop_stall (fuel : Nat) :
    ∀ ch : List Str, chunkLoop stallText 10 5 fuel ⟨0, ch⟩ = none := by
  induction fuel with
  | zero => intro ch; rfl
  | succ n ih =>
    intro ch
    have h1 : chunkLoop stallText 10 5 (n + 1) ⟨0, ch⟩
        = chunkLoop stallText 10 5 n ⟨0, ch ++ [lit "abcd."]⟩ := by
      simp only [chunkLoop]
      rw [if_pos (by decide), chunkStep_stall, Option.some_bind]
    rw [h1]
    exact ih _

/-- C1 counterexample: with chunk_size = 10 and overlap = 5 the
documented precondition 0 ≤ overlap < chunk_size holds, yet on the text
"abcd.fghijklmnop" the loop of chunk_text never terminates: no amount of
fuel makes it return. -/
theorem chunk_terminates_cex :
    ((0 : Int) ≤ 5 ∧ (5 : Int) < 10) ∧
      ¬ ∃ fuel : Nat, (chunk_text stallText 10 5 fuel).isSome = true := by
  refine ⟨by norm_num, ?_⟩
  rintro ⟨fuel, hf⟩
  have hnone : chunk_text stallText 10 5 fuel = none := by
    unfold chunk_text
    rw [if_neg (by decide)]
    exact chunkLoop_stall fuel []
  rw [hnone] at hf
  simp at hf

lemma pyStrip_length_le (s : Str) : (pyStrip s).length ≤ s.length := by
  unfold pyStrip
  rw [List.length_reverse]
  refine le_trans ((List.dropWhile_sublist pyIsSpace).length_le) ?_
  rw [List.length_reverse]
  exact (List.dropWhile_sublist pyIsSpace).length_le

lemma pyResolve_le (L : Nat) (i : Int) : pyResolve L i ≤ L := by
  unfold pyResolve
  split_ifs <;> omega

lemma pyResolve_bound (L : Nat) {a b k : Int} (hab : a < b) (hbk : b ≤ a + k) :
    (pyResolve L b : Int) ≤ pyResolve L a + k := by
  unfold pyResolve
  split_ifs <;> omega

lemma pySlice_length (s : Str) (a b : Int) :
    (pySlice s a b).length = pyResolve s.length b - pyResolve s.length a := by
  unfold pySlice
  rw [List.length_drop, List.length_take]
  have := pyResolve_le s.length b
  omega

lemma pySlice_subset (s : Str) (a b : Int) : ∀ c ∈ pySlice s a b, c ∈ s := by
  intro c hc
  exact List.take_subset _ s (List.drop_subset _ _ hc)

lemma pyGet_in_range (s : Str) {i : Int} (h0 : 0 ≤ i) (hL : i < s.length) :
    ∃ c, pyGet s i = some c ∧ c ∈ s := by
  have hn : i.toNat < s.length := by omega
  refine ⟨s.get ⟨i.toNat, hn⟩, ?_, List.get_mem s i.toNat hn⟩
  unfold pyGet
  rw [if_pos h0, List.get?_eq_get hn]

/-- A successful boundary search over fuel iterations starting at i finds
end = e with i - fuel + 2 ≤ e ≤ i + 1. -/
lemma searchBack_some_bounds {text : Str} :
    ∀ {fuel : Nat} {i e : Int}, searchBack text fuel i = some (some e) →
      i - fuel + 2 ≤ e ∧ e ≤ i + 1 := by
  intro fuel
  induction fuel with
  | zero => intro i e h; simp [searchBack] at h
  | succ n ih =>
    intro i e h
    unfold searchBack at h
    cases hg : pyGet text i with
    | none => rw [hg] at h; simp at h
    | some c =>
      rw [hg, Option.some_bind] at h
      by_cases hb : isSentenceEnd c
      · rw [if_pos hb] at h
        simp only [Option.some.injEq] at h
        push_cast
        omega
      · rw [if_neg hb] at h
        have := ih h
        push_cast at this ⊢
        omega

/-- When every index the range will visit is in bounds, the boundary
search does not raise: it returns some result. -/
lemma searchBack_isSome {text : Str} :
    ∀ (fuel : Nat) (i : Int),
      (∀ j : Int, i - fuel < j → j ≤ i → 0 ≤ j ∧ j < text.length) →
      ∃ r, searchBack text fuel i = some r := by
  intro fuel
  induction fuel with
  | zero => exact fun i _ => ⟨none, rfl⟩
  | succ n ih =>
    intro i hin
    have hi : 0 ≤ i ∧ i < text.length := hin i (by push_cast; omega) le_rfl
    obtain ⟨c, hc, _⟩ := pyGet_in_range text hi.1 hi.2
    unfold searchBack
    rw [hc, Option.some_bind]
    by_cases hb : isSentenceEnd c
    · exact ⟨some (i + 1), by rw [if_pos hb]⟩
    · rw [if_neg hb]
      refine ih (i - 1) ?_
      intro j hj1 hj2
      refine hin j ?_ (by omega)
      push_cast at hj1 ⊢
      omega

/-- With no sentence-terminal character anywhere in the text, a search
whose visited indices are in bounds exhausts its range without a find. -/
lemma searchBack_no_boundary {text : Str}
    (hnb : ∀ c ∈ text, isSentenceEnd c = false) :
    ∀ (fuel : Nat) (i : Int),
      (∀ j : Int, i - fuel < j → j ≤ i → 0 ≤ j ∧ j < text.length) →
      searchBack text fuel i = some none := by
  intro fuel
  induction fuel with
  | zero => exact fun i _ => rfl
  | succ n ih =>
    intro i hin
    have hi : 0 ≤ i ∧ i < text.length := hin i (by push_cast; omega) le_rfl
    obtain ⟨c, hc, hmem⟩ := pyGet_in_range text hi.1 hi.2
    unfold searchBack
    rw [hc, Option.some_bind, if_neg (by rw [hnb c hmem]; exact Bool.false_ne_true)]
    refine ih (i - 1) ?_
    intro j hj1 hj2
    refine hin j ?_ (by omega)
    push_cast at hj1 ⊢
    omega

/-- Shape of one successful loop iteration: the chunk list either stays
unchanged (the window stripped to nothing) or grows by one non-empty
stripped window text[start:e] with start < e ≤ start + chunk_size + 1. -/
lemma chunkStep_chunks {text : Str} {cs ov : Int} (hcs : 0 < cs)
    {s : Int} {ch : List Str} {st' : ChunkState}
    (h : chunkStep text cs ov ⟨s, ch⟩ = some st') :
    st'.chunks = ch ∨
      ∃ e : Int, s < e ∧ e ≤ s + cs + 1 ∧
        pyStrip (pySlice text s e) ≠ [] ∧
        st'.chunks = ch ++ [pyStrip (pySlice text s e)] := by
  unfold chunkStep at h
  have hse : ∀ e : Int, s < e → e ≤ s + cs + 1 →
      (some ⟨e - ov,
        if (pyStrip (pySlice text s e)).isEmpty then ch
        else ch ++ [pyStrip (pySlice text s e)]⟩ : Option ChunkState) = some st' →
      st'.chunks = ch ∨
        ∃ e' : Int, s < e' ∧ e' ≤ s + cs + 1 ∧
          pyStrip (pySlice text s e') ≠ [] ∧
          st'.chunks = ch ++ [pyStrip (pySlice text s e')] := by
    intro e he1 he2 heq
    simp only [Option.some.injEq] at heq
    by_cases hemp : (pyStrip (pySlice text s e)).isEmpty
    · left
      rw [← heq]
      simp [hemp]
    · right
      refine ⟨e, he1, he2, by simpa using hemp, ?_⟩
      rw [← heq]
      simp [hemp]
  by_cases hlt : s + cs < (text.length : Int)
  · rw [if_pos hlt] at h
    cases hsb : searchBack text ((s + cs - max (s + cs - 100) s).toNat) (s + cs) with
    | none => rw [hsb] at h; exact absurd h (by simp)
    | some found =>
      rw [hsb] at h
      cases found with
      | none => exact hse (s + cs) (by omega) (by omega) h
      | some e =>
        obtain ⟨hlo, hhi⟩ := searchBack_some_bounds hsb
        have hstop : max (s + cs - 100) s ≤ s + cs := by omega
        have hfe : ((s + cs - max (s + cs - 100) s).toNat : Int)
            = s + cs - max (s + cs - 100) s := by omega
        refine hse e ?_ (by omega) h
        rw [hfe] at hlo
        omega
  · rw [if_neg hlt] at h
    exact hse (s + cs) (by omega) (by omega) h

/-- Every chunk the loop ever appends has length at most chunk_size + 1,
hence at most chunk_size + 100: invariant over the loop. -/
lemma chunkLoop_bound {text : Str} {cs ov : Int} (hcs : 0 < cs) :
    ∀ (fuel : Nat) (s : Int) (ch res : List Str),
      (∀ c ∈ ch, (c.length : Int) ≤ cs + 100) →
      chunkLoop text cs ov fuel ⟨s, ch⟩ = some res →
      ∀ c ∈ res, (c.length : Int) ≤ cs + 100 := by
  intro fuel
  induction fuel with
  | zero => intro s ch res _ h; simp [chunkLoop] at h
  | succ n ih =>
    intro s ch res hch h
    simp only [chunkLoop] at h
    by_cases hsl : s < (text.length : Int)
    · rw [if_pos hsl] at h
      cases hst : chunkStep text cs ov ⟨s, ch⟩ with
      | none => rw [hst] at h; exact absurd h (by simp)
      | some st' =>
        rw [hst] at h
        refine ih st'.start st'.chunks res ?_ h
        rcases chunkStep_chunks hcs hst with hsame | ⟨e, he1, he2, _, happ⟩
        · rw [hsame]; exact hch
        · rw [happ]
          intro c hc
          rcases List.mem_append.mp hc with hold | hnew
          · exact hch c hold
          · have hceq : c = pyStrip (pySlice text s e) := by simpa using hnew
            have h1 : (pyStrip (pySlice text s e)).length
                ≤ (pySlice text s e).length := pyStrip_length_le _
            have h2 : (pySlice text s e).length
                = pyResolve text.length e - pyResolve text.length s :=
              pySlice_length text s e
            have h3 : (pyResolve text.length e : Int)
                ≤ pyResolve text.length s + (cs + 1) :=
              pyResolve_bound text.length he1 (by omega)
            rw [hceq]
            omega
    · rw [if_neg hsl] at h
      simp only [Option.some.injEq] at h
      rw [← h]
      exact hch

/-- C4: for every text longer than chunk_size and every configuration
with 0 ≤ overlap < chunk_size, every string a terminating run of
chunk_text returns has length at most chunk_size + 100 (the
sentence-boundary search slack; in fact at most chunk_size + 1). -/
theorem chunk_length_bound (text : Str) (cs ov : Int) (fuel : Nat)
    (res : List Str) (hlong : cs < (text.length : Int))
    (hov : 0 ≤ ov) (hoc : ov < cs)
    (h : chunk_text text cs ov fuel = some res) :
    ∀ c ∈ res, (c.length : Int) ≤ cs + 100 := by
  unfold chunk_text at h
  rw [if_neg (by omega)] at h
  exact chunkLoop_bound (by omega) fuel 0 [] res (by simp) h

theorem chunk_length_bound_witness : (((lit "aa").length : Int)) ≤ 2 + 100 :=
  chunk_length_bound (lit "aaaa") 2 1 10 [lit "aa", lit "aa", lit "aa", lit "a"]
    (by decide) (by decide) (by decide) (by decide) (lit "aa") (by decide)

/-- Non-emptiness invariant over the loop: only non-empty stripped
windows are ever appended. -/
lemma chunkLoop_nonempty {text : Str} {cs ov : Int} (hcs : 0 < cs) :
    ∀ (fuel : Nat) (s : Int) (ch res : List Str),
      (∀ c ∈ ch, c ≠ []) →
      chunkLoop text cs ov fuel ⟨s, ch⟩ = some res →
      ∀ c ∈ res, c ≠ [] := by
  intro fuel
  induction fuel with
  | zero => intro s ch res _ h; simp [chunkLoop] at h
  | succ n ih =>
    intro s ch res hch h
    simp only [chunkLoop] at h
    by_cases hsl : s < (text.length : Int)
    · rw [if_pos hsl] at h
      cases hst : chunkStep text cs ov ⟨s, ch⟩ with
      | none => rw [hst] at h; exact absurd h (by simp)
      | some st' =>
        rw [hst] at h
        refine ih st'.start st'.chunks res ?_ h
        rcases chunkStep_chunks hcs hst with hsame | ⟨e, _, _, hne, happ⟩
        · rw [hsame]; exact hch
        · rw [happ]
          intro c hc
          rcases List.mem_append.mp hc with hold | hnew
          · exact hch c hold
          · have hceq : c = pyStrip (pySlice text s e) := by simpa using hnew
            rw [hceq]; exact hne
    · rw [if_neg hsl] at h
      simp only [Option.some.injEq] at h
      rw [← h]
      exact hch

/-- C8 (amended): for every text longer than chunk_size (with a positive
chunk_size), every element a terminating run of chunk_text returns is a
non-empty string; a text of length at most chunk_size is returned as the
single element [text] unchanged, which is empty when the text is. -/
theorem chunk_nonempty (text : Str) (cs ov : Int) (fuel : Nat)
    (res : List Str) (hcs : 0 < cs) (hlong : cs < (text.length : Int))
    (h : chunk_text text cs ov fuel = some res) :
    ∀ c ∈ res, c ≠ [] := by
  unfold chunk_text at h
  rw [if_neg (by omega)] at h
  exact chunkLoop_nonempty hcs fuel 0 [] res (by simp) h

theorem chunk_nonempty_witness : lit "bb" ≠ [] :=
  chunk_nonempty (lit "bbb") 2 1 10 [lit "bb", lit "bb", lit "b"]
    (by decide) (by decide) (by decide) (lit "bb") (by decide)

/-- C8 counterexample: on the empty text, chunk_text returns a
one-element list containing the empty string, so not every element of the
returned sequence is non-empty. -/
theorem chunk_nonempty_cex :
    chunk_text ([] : Str) 1000 200 1 = some [([] : Str)] ∧
      ¬ (∀ res, chunk_text ([] : Str) 1000 200 1 = some res →
          ∀ c ∈ res, c ≠ []) := by
  constructor
  · rfl
  · intro h
    exact h [[]] rfl [] (by simp) rfl

/-- Progress: under 0 ≤ overlap and overlap + 99 ≤ chunk_size, one loop
iteration from a cursor 0 ≤ start < len(text) succeeds and advances the
cursor by at least one. -/
lemma chunkStep_progress {text : Str} {cs ov : Int}
    (hov : 0 ≤ ov) (hslack : ov + 99 ≤ cs)
    {s : Int} (hs : 0 ≤ s) (_hsL : s < (text.length : Int)) (ch : List Str) :
    ∃ st', chunkStep text cs ov ⟨s, ch⟩ = some st' ∧ s + 1 ≤ st'.start := by
  unfold chunkStep
  by_cases hlt : s + cs < (text.length : Int)
  · rw [if_pos hlt]
    have hin : ∀ j : Int,
        (s + cs) - (((s + cs - max (s + cs - 100) s).toNat : Nat) : Int) < j →
        j ≤ s + cs → 0 ≤ j ∧ j < (text.length : Int) := by
      intro j hj1 hj2
      constructor
      · omega
      · omega
    obtain ⟨r, hr⟩ := searchBack_isSome
      ((s + cs - max (s + cs - 100) s).toNat) (s + cs) hin
    rw [hr, Option.map_some']
    cases r with
    | none =>
      refine ⟨_, rfl, ?_⟩
      show s + 1 ≤ (none : Option Int).getD (s + cs) - ov
      rw [Option.getD_none]
      omega
    | some e =>
      obtain ⟨hlo, hhi⟩ := searchBack_some_bounds hr
      refine ⟨_, rfl, ?_⟩
      show s + 1 ≤ (some e).getD (s + cs) - ov
      rw [Option.getD_some]
      omega
  · rw [if_neg hlt, Option.map_some']
    refine ⟨_, rfl, ?_⟩
    show s + 1 ≤ (none : Option Int).getD (s + cs) - ov
    rw [Option.getD_none]
    omega

/-- The loop terminates within len(text) - start further iterations. -/
lemma chunkLoop_isSome {text : Str} {cs ov : Int}
    (hov : 0 ≤ ov) (hslack : ov + 99 ≤ cs) :
    ∀ (fuel : Nat) (s : Int) (ch : List Str), 0 ≤ s →
      ((text.length : Int) - s).toNat < fuel →
      (chunkLoop text cs ov fuel ⟨s, ch⟩).isSome := by
  intro fuel
  induction fuel with
  | zero => intro s ch _ hf; exact absurd hf (Nat.not_lt_zero _)
  | succ n ih =>
    intro s ch hs hf
    simp only [chunkLoop]
    by_cases hsl : s < (text.length : Int)
    · rw [if_pos hsl]
      obtain ⟨st', hst', hprog⟩ := chunkStep_progress hov hslack hs hsl ch
      rw [hst', Option.some_bind]
      exact ih st'.start st'.chunks (by omega) (by omega)
    · rw [if_neg hsl]
      rfl

/-- C1 (amended): chunk_text terminates for every text whenever
0 ≤ overlap and overlap + 99 ≤ chunk_size (in particular for the default
configuration chunk_size = 1000, overlap = 200): fuel len(text) + 1 makes
the loop return. The spec's weaker precondition overlap < chunk_size does
not suffice (see the counterexample). -/
theorem chunk_text_terminates (text : Str) (cs ov : Int)
    (hov : 0 ≤ ov) (hslack : ov + 99 ≤ cs) :
    (chunk_text text cs ov (text.length + 1)).isSome := by
  unfold chunk_text
  by_cases h : (text.length : Int) ≤ cs
  · rw [if_pos h]
    rfl
  · rw [if_neg h]
    exact chunkLoop_isSome hov hslack (text.length + 1) 0 [] le_rfl (by omega)

theorem chunk_text_terminates_witness :
    (chunk_text (lit "one. two. three.") 1000 200
      ((lit "one. two. three.").length + 1)).isSome :=
  chunk_text_terminates (lit "one. two. three.") 1000 200
    (by norm_num) (by norm_num)

lemma dropWhile_eq_self_of {p : Char → Bool} {l : Str}
    (h : ∀ c ∈ l, p c = false) : l.dropWhile p = l := by
  cases l with
  | nil => rfl
  | cons a t =>
    rw [List.dropWhile_cons,
      if_neg (by rw [h a (List.mem_cons_self a t)]; exact Bool.false_ne_true)]

lemma pyStrip_eq_self {l : Str} (h : ∀ c ∈ l, pyIsSpace c = false) :
    pyStrip l = l := by
  unfold pyStrip
  rw [dropWhile_eq_self_of h,
    dropWhile_eq_self_of (fun c hc => h c (List.mem_reverse.mp hc))]
  exact List.reverse_reverse l

/-- On text with no sentence terminals and no whitespace, one loop
iteration from 0 ≤ start < len(text) appends exactly the raw window
text[start : start + chunk_size] and advances by chunk_size - overlap. -/
lemma chunkStep_noBoundary {text : Str} {cs ov : Int}
    (hnb : ∀ c ∈ text, isSentenceEnd c = false)
    (hns : ∀ c ∈ text, pyIsSpace c = false) (hcs : 0 < cs)
    {s : Int} (hs : 0 ≤ s) (hsL : s < (text.length : Int)) (ch : List Str) :
    chunkStep text cs ov ⟨s, ch⟩ =
      some ⟨s + cs - ov, ch ++ [pySlice text s (s + cs)]⟩ := by
  have hsearch : (if s + cs < (text.length : Int) then
      searchBack text
        ((s + cs - max (s + cs - 100) s).toNat) (s + cs)
    else some none) = some none := by
    by_cases hlt : s + cs < (text.length : Int)
    · rw [if_pos hlt]
      refine searchBack_no_boundary hnb _ _ ?_
      intro j hj1 hj2
      constructor
      · omega
      · omega
    · rw [if_neg hlt]
  have hstrip : pyStrip (pySlice text s (s + cs)) = pySlice text s (s + cs) :=
    pyStrip_eq_self (fun c hc => hns c (pySlice_subset text s (s + cs) c hc))
  have hlen : (pySlice text s (s + cs)).length ≠ 0 := by
    rw [pySlice_length]
    have hresolve : pyResolve text.length s < pyResolve text.length (s + cs) := by
      unfold pyResolve
      split_ifs <;> omega
    omega
  unfold chunkStep
  rw [hsearch, Option.map_some']
  show some (⟨(none : Option Int).getD (s + cs) - ov, _⟩ : ChunkState) = _
  rw [Option.getD_none]
  have hempty : (pyStrip (pySlice text s (s + cs))).isEmpty = false := by
    rw [hstrip]
    cases hsl : pySlice text s (s + cs) with
    | nil => rw [hsl] at hlen; simp at hlen
    | cons a t => rfl
  rw [if_neg (by rw [hempty]; exact Bool.false_ne_true), hstrip]

/-- Chunk count for boundary-free, whitespace-free text: starting the
loop at cursor s, exactly ceil((len - s) / (chunk_size - overlap)) more
chunks are produced. -/
lemma chunkLoop_count {text : Str} {cs ov : Int}
    (hnb : ∀ c ∈ text, isSentenceEnd c = false)
    (hns : ∀ c ∈ text, pyIsSpace c = false)
    (hov : 0 ≤ ov) (hoc : ov < cs) :
    ∀ (fuel : Nat) (s : Int) (ch : List Str), 0 ≤ s →
      s < (text.length : Int) →
      ((text.length : Int) - s).toNat < fuel →
      ∃ res, chunkLoop text cs ov fuel ⟨s, ch⟩ = some res ∧
        res.length = ch.length +
          (((text.length : Int) - s).toNat + (cs - ov).toNat - 1) / (cs - ov).toNat := by
  intro fuel
  induction fuel with
  | zero => intro s ch _ _ hf; exact absurd hf (Nat.not_lt_zero _)
  | succ n ih =>
    intro s ch hs hsL hf
    have hstep := @chunkStep_noBoundary text cs ov hnb hns (by omega) s hs hsL ch
    simp only [chunkLoop]
    rw [if_pos hsL, hstep, Option.some_bind]
    have hdpos : 0 < (cs - ov).toNat := by omega
    by_cases hnext : s + cs - ov < (text.length : Int)
    · obtain ⟨res, hres, hlen⟩ := ih (s + cs - ov)
        (ch ++ [pySlice text s (s + cs)]) (by omega) (by omega) (by omega)
      refine ⟨res, hres, ?_⟩
      rw [hlen, List.length_append, List.length_singleton]
      have harith : ((text.length : Int) - s).toNat + (cs - ov).toNat - 1
          = ((((text.length : Int) - (s + cs - ov)).toNat + (cs - ov).toNat - 1))
            + (cs - ov).toNat := by omega
      rw [harith, Nat.add_div_right _ hdpos]
      omega
    · cases n with
      | zero => exact absurd hf (by omega)
      | succ k =>
        refine ⟨ch ++ [pySlice text s (s + cs)], ?_, ?_⟩
        · have hexit : ¬ (s + cs - ov < (text.length : Int)) := hnext
          simp only [chunkLoop]
          rw [if_neg hexit]
        · rw [List.length_append, List.length_singleton]
          have hq : (((text.length : Int) - s).toNat + (cs - ov).toNat - 1)
              / (cs - ov).toNat = 1 :=
            Nat.div_eq_of_lt_le (by omega) (by omega)
          omega

/-- C3 (amended): for text longer than chunk_size containing no sentence
terminal and no whitespace character (so no window is dropped by strip),
with 0 ≤ overlap < chunk_size, chunk_text returns exactly
ceil(len(text) / (chunk_size - overlap)) chunks. The spec's formula
ceil((len - overlap) / (chunk_size - overlap)) ± 1 is wrong in general
(see the counterexample). -/
theorem chunk_count_no_boundary (text : Str) (cs ov : Int)
    (hnb : ∀ c ∈ text, isSentenceEnd c = false)
    (hns : ∀ c ∈ text, pyIsSpace c = false)
    (hov : 0 ≤ ov) (hoc : ov < cs) (hlong : cs < (text.length : Int)) :
    ∃ res, chunk_text text cs ov (text.length + 1) = some res ∧
      res.length = (text.length + (cs - ov).toNat - 1) / (cs - ov).toNat := by
  unfold chunk_text
  rw [if_neg (by omega)]
  obtain ⟨res, h1, h2⟩ := chunkLoop_count hnb hns hov hoc
    (text.length + 1) 0 [] le_rfl (by omega) (by omega)
  refine ⟨res, h1, ?_⟩
  rw [h2]
  norm_num

theorem chunk_count_no_boundary_witness :
    (chunk_text (lit "xxxxxxxxxxxx") 10 9
      ((lit "xxxxxxxxxxxx").length + 1)).map List.length
      = some (((lit "xxxxxxxxxxxx").length + ((10 : Int) - 9).toNat - 1)
          / ((10 : Int) - 9).toNat) := by
  obtain ⟨res, h1, h2⟩ := chunk_count_no_boundary (lit "xxxxxxxxxxxx") 10 9
    (by decide) (by decide) (by decide) (by decide) (by decide)
  rw [h1, Option.map_some', h2]

/-- C3 counterexample: the 12-character boundary-free text of all x with
chunk_size = 10 and overlap = 9 (overlap < chunk_size) yields 12 chunks,
while the claimed formula ceil((12 - 9) / (10 - 9)) gives 3 — off by 9,
not at most 1. -/
theorem chunk_count_cex :
    (chunk_text (lit "xxxxxxxxxxxx") 10 9 20).map List.length = some 12 ∧
      ((12 - 9 + (10 - 9) - 1) / (10 - 9) : Nat) = 3 ∧ (3 + 1 : Nat) < 12 := by
  refine ⟨by decide, by norm_num, by norm_num⟩

/-- The zero fallback embedding of IndexingPipeline.generate_embeddings:
[0.0] * 3072 (fallback_dim = 3072). -/
def zeroVec : List ℚ := List.replicate 3072 0

/-- IndexingPipeline.generate_embeddings (embedding_pipeline.py lines
95-119): texts are processed in batches of 100 (batch_size = 100); the
remote endpoint is the oracle api, where none models a raised exception;
a failing batch contributes one zero vector per text of that batch, and
the loop falls through to the next batch either way. -/
def generate_embeddings (api : List Str → Option (List (List ℚ))) :
    List Str → List (List ℚ)
  | [] => []
  | t :: ts =>
    (match api ((t :: ts).take 100) with
      | some vs => vs
      | none => ((t :: ts).take 100).map fun _ => zeroVec)
      ++ generate_embeddings api ((t :: ts).drop 100)
termination_by texts => texts.length
decreasing_by
  simp only [List.length_drop, List.length_cons]
  omega

lemma generate_embeddings_length (api : List Str → Option (List (List ℚ)))
    (hapi : ∀ b vs, api b = some vs → vs.length = b.length) :
    ∀ (n : Nat) (texts : List Str), texts.length ≤ n →
      (generate_embeddings api texts).length = texts.length := by
  intro n
  induction n with
  | zero =>
    intro texts h
    have : texts = [] := List.eq_nil_of_length_eq_zero (by omega)
    rw [this, generate_embeddings]
    rfl
  | succ n ih =>
    intro texts h
    cases texts with
    | nil => rw [generate_embeddings]; rfl
    | cons t ts =>
      rw [generate_embeddings, List.length_append,
        ih ((t :: ts).drop 100) (by simp only [List.length_drop, List.length_cons] at *; omega),
        List.length_drop]
      cases hab : api ((t :: ts).take 100) with
      | some vs =>
        rw [hapi _ _ hab, List.length_take]
        simp only [List.length_cons]
        omega
      | none =>
        rw [List.length_map, List.length_take]
        simp only [List.length_cons]
        omega

/-- C5: the batch-remote embedding operation returns one vector per input
text in input order (given that a successful remote call returns one
embedding per submitted text): the empty list yields the empty list, the
fallback vector is the 3072-dimensional zero vector, every input yields
exactly one output vector, and a batch whose remote call fails is
replaced by zero vectors while the remaining batches are still
processed. -/
theorem generate_embeddings_spec (api : List Str → Option (List (List ℚ)))
    (hapi : ∀ b vs, api b = some vs → vs.length = b.length) :
    generate_embeddings api [] = [] ∧
    zeroVec.length = 3072 ∧
    (∀ texts, (generate_embeddings api texts).length = texts.length) ∧
    (∀ t ts, api ((t :: ts).take 100) = none →
      generate_embeddings api (t :: ts)
        = ((t :: ts).take 100).map (fun _ => zeroVec)
          ++ generate_embeddings api ((t :: ts).drop 100)) := by
  refine ⟨by rw [generate_embeddings], by rw [zeroVec, List.length_replicate], ?_, ?_⟩
  · intro texts
    exact generate_embeddings_length api hapi texts.length texts le_rfl
  · intro t ts hfail
    rw [generate_embeddings, hfail]

def okApi : List Str → Option (List (List ℚ)) :=
  fun b => some (b.map fun _ => [1])

theorem generate_embeddings_spec_witness :
    (generate_embeddings okApi [lit "a", lit "b"]).length = 2 := by
  have h := generate_embeddings_spec okApi
    (by intro b vs hv
        simp only [okApi, Option.some.injEq] at hv
        rw [← hv, List.length_map])
  simpa using h.2.2.1 [lit "a", lit "b"]

/-- A retrieved source as built by retrieve: content, source label and
similarity score 1 - distance. -/
structure Source where
  content : Str
  source : Str
  score : ℚ
deriving DecidableEq

/-- Shape of a chroma collection.query result: documents, metadatas (the
optional file_name field) and distances, one inner list per query
embedding. -/
structure QueryResult where
  documents : List (List Str)
  metadatas : List (List (Option Str))
  distances : List (List ℚ)

def unknownLabel : Str := lit "Unknown"

/-- The result-formatting loop shared by RAGEngine.retrieve and
FreeRAGEngine.retrieve: when results['documents'] is empty or its first
entry is empty, no sources are built; otherwise each document is paired
with metadatas[0][i] (file_name defaulting to 'Unknown') and
distances[0][i], score = 1 - distance; a missing index is an IndexError,
modelled as none (it is caught by the surrounding except). -/
def formatSources (res : QueryResult) : Option (List Source) :=
  match res.documents.head? with
  | none => some []
  | some docs0 =>
    if docs0.isEmpty then some []
    else
      (List.range docs0.length).mapM fun i => do
        let doc ← docs0.get? i
        let metas0 ← res.metadatas.get? 0
        let meta ← metas0.get? i
        let dists0 ← res.distances.get? 0
        let dist ← dists0.get? i
        pure ⟨doc, meta.getD unknownLabel, 1 - dist⟩

/-- RAGEngine.retrieve (rag_engine.py lines 30-62): embed the question,
re-acquire the collection handle, query, format; every raised exception
(any oracle returning none) is caught and turned into the empty list. -/
def RAGEngine.retrieve (embed : Option (List ℚ)) (getCol : Option Unit)
    (query : Option QueryResult) : List Source :=
  (do
    let _ ← embed
    let _ ← getCol
    let res ← query
    formatSources res).getD []

def noInfoMsg : Str :=
  lit "I couldn\x27t find relevant information to answer your question. Please try rephrasing your question or check if the documents have been indexed."

def genErrorMsg : Str :=
  lit "I encountered an error while generating the answer. Please try again."

/-- The context block of RAGEngine.generate_answer: sources joined as
"Source: <label>\nContent: <text>" separated by blank lines. -/
def contextOf (sources : List Source) : Str :=
  List.intercalate (lit "\n\n")
    (sources.map fun s => lit "Source: " ++ s.source ++ lit "\nContent: " ++ s.content)

/-- The grounding prompt of RAGEngine.generate_answer. -/
def promptOf (question : Str) (sources : List Source) : Str :=
  lit "Based on the following context from company documents, please answer the question. Be specific and cite sources when possible.\n\nContext:\n"
    ++ contextOf sources
    ++ lit "\n\nQuestion: " ++ question
    ++ lit "\n\nPlease provide a clear, helpful answer based on the context above. If the context doesn\x27t contain enough information to fully answer the question, please say so and provide what information is available."

/-- RAGEngine.generate_answer (rag_engine.py lines 64-103): with no
sources, the fixed no-information message without touching the model;
otherwise the generation oracle is called on the prompt, a raised
exception (none) becoming the fixed error message. -/
def RAGEngine.generate_answer (gen : Str → Option Str) (question : Str)
    (sources : List Source) : Str :=
  if sources.isEmpty then noInfoMsg
  else
    match gen (promptOf question sources) with
    | some ans => ans
    | none => genErrorMsg

/-- RAGEngine.ask (rag_engine.py lines 105-113). -/
def RAGEngine.ask (embed : Option (List ℚ)) (getCol : Option Unit)
    (query : Option QueryResult) (gen : Str → Option Str) (question : Str) :
    Str × List Source :=
  let sources := RAGEngine.retrieve embed getCol query
  (RAGEngine.generate_answer gen question sources, sources)

def freeFallbackContent : Str :=
  lit "I couldn\x27t retrieve relevant information from the documents. Please ensure documents are properly indexed."

def systemLabel : Str := lit "System"

/-- The single fallback source FreeRAGEngine.retrieve returns from its
except branch. -/
def systemFallbackSource : Source := ⟨freeFallbackContent, systemLabel, 0⟩

/-- FreeRAGEngine.retrieve (rag_engine_free.py lines 15-47): an empty
collection short-circuits to the empty list; any raised exception is
caught and turned into the one-element System fallback list. -/
def FreeRAGEngine.retrieve (count : Nat) (embed : Option (List ℚ))
    (query : Option QueryResult) : List Source :=
  let body : Option (List Source) :=
    if count = 0 then some []
    else do
      let _ ← embed
      let res ← query
      formatSources res
  match body with
  | some s => s
  | none => [systemFallbackSource]

def basedOnIntro : Str := lit "Based on the available information:\n\n"

def foundSomeMsg : Str :=
  lit "I found some relevant information but couldn\x27t generate a specific answer. Please check the sources below for more details."

/-- Truncation of a source's content in FreeRAGEngine.generate_answer:
content[:200] + "..." when longer than 200 characters. -/
def truncate200 (c : Str) : Str :=
  if 200 < c.length then c.take 200 ++ lit "..." else c

/-- FreeRAGEngine.generate_answer (rag_engine_free.py lines 49-70):
template-only composition over the top two sources. -/
def FreeRAGEngine.generate_answer (question : Str) (sources : List Source) :
    Str :=
  if sources.isEmpty then noInfoMsg
  else
    let answer_parts := (sources.take 2).map fun s => truncate200 s.content
    if answer_parts.isEmpty then foundSomeMsg
    else basedOnIntro ++ List.intercalate (lit "\n\n") answer_parts

/-- FreeRAGEngine.ask (rag_engine_free.py lines 72-85): the body's
exceptions are already recovered inside retrieve, so the happy path is
total. -/
def FreeRAGEngine.ask (count : Nat) (embed : Option (List ℚ))
    (query : Option QueryResult) (question : Str) : Str × List Source :=
  let sources := FreeRAGEngine.retrieve count embed query
  (FreeRAGEngine.generate_answer question sources, sources)

/-- The query result chroma returns on an empty collection: one empty
inner list per field. -/
def emptyQueryResult : QueryResult := ⟨[[]], [[]], [[]]⟩

/-- C6 (amended): retrieve never propagates an exception. On an empty
index both engines return the empty list; on an underlying failure
(embedding error, handle re-acquisition error, query error) the Azure
engine returns the empty list, while the free engine returns the
one-element System-labelled fallback list — not the empty list. -/
theorem retrieve_failure_behavior :
    (∀ (g : Option Unit) (q : Option QueryResult),
        RAGEngine.retrieve none g q = []) ∧
    (∀ (e : Option (List ℚ)) (q : Option QueryResult),
        RAGEngine.retrieve e none q = []) ∧
    (∀ (e : Option (List ℚ)) (g : Option Unit),
        RAGEngine.retrieve e g none = []) ∧
    (∀ (e : List ℚ) (g : Unit),
        RAGEngine.retrieve (some e) (some g) (some emptyQueryResult) = []) ∧
    (∀ (e : Option (List ℚ)) (q : Option QueryResult),
        FreeRAGEngine.retrieve 0 e q = []) ∧
    (∀ count : Nat, count ≠ 0 →
        FreeRAGEngine.retrieve count none none = [systemFallbackSource]) := by
  refine ⟨?_, ?_, ?_, ?_, ?_, ?_⟩
  · intro g q
    rfl
  · intro e q
    cases e <;> rfl
  · intro e g
    cases e <;> cases g <;> rfl
  · intro e g
    rfl
  · intro e q
    rfl
  · intro count hc
    unfold FreeRAGEngine.retrieve
    rw [if_neg hc]
    rfl

theorem retrieve_failure_behavior_witness :
    FreeRAGEngine.retrieve 5 none none = [systemFallbackSource] :=
  retrieve_failure_behavior.2.2.2.2.2 5 (by decide)

/-- C6 counterexample: a failing underlying call in the free engine
yields the one-element System fallback list, not the empty source list
the claim requires. -/
theorem retrieve_failure_cex :
    FreeRAGEngine.retrieve 5 none none
        = [⟨freeFallbackContent, systemLabel, 0⟩] ∧
      FreeRAGEngine.retrieve 5 none none ≠ [] := by
  constructor
  · rfl
  · decide

/-- C7: ask never fails outright. Against an empty index (retrieve
producing no sources) the Azure engine answers the fixed no-information
message with an empty source list, for every generation oracle (the model
is not consulted); a generation failure yields the fixed error message;
the free engine with an empty collection answers the same no-information
message, and with a failing retrieval answers the fallback template over
the System source. -/
theorem ask_never_fails :
    (∀ e g q gen question, RAGEngine.retrieve e g q = [] →
        RAGEngine.ask e g q gen question = (noInfoMsg, [])) ∧
    (∀ e g q question, RAGEngine.retrieve e g q ≠ [] →
        (RAGEngine.ask e g q (fun _ => none) question).1 = genErrorMsg) ∧
    (∀ e q question, FreeRAGEngine.ask 0 e q question = (noInfoMsg, [])) ∧
    (∀ (count : Nat) question, count ≠ 0 →
        FreeRAGEngine.ask count none none question
          = (basedOnIntro ++ freeFallbackContent, [systemFallbackSource])) := by
  refine ⟨?_, ?_, ?_, ?_⟩
  · intro e g q gen question hret
    unfold RAGEngine.ask
    rw [hret]
    rfl
  · intro e g q question hret
    have hfst : (RAGEngine.ask e g q (fun _ => none) question).1
        = RAGEngine.generate_answer (fun _ => none) question
            (RAGEngine.retrieve e g q) := rfl
    rw [hfst]
    unfold RAGEngine.generate_answer
    rw [if_neg (by simpa [List.isEmpty_iff] using hret)]
  · intro e q question
    rfl
  · intro count question hc
    have hret : FreeRAGEngine.retrieve count none none = [systemFallbackSource] := by
      unfold FreeRAGEngine.retrieve
      rw [if_neg hc]
      rfl
    unfold FreeRAGEngine.ask
    rw [hret]
    rfl

theorem ask_never_fails_witness :
    FreeRAGEngine.ask 2 none none (lit "any question")
      = (basedOnIntro ++ freeFallbackContent, [systemFallbackSource]) :=
  ask_never_fails.2.2.2 2 (lit "any question") (by decide)

/-- Chunk metadata as built by IndexingPipeline.run. -/
structure Meta where
  file_name : Str
  file_path : Str
  chunk_index : Nat
  total_chunks : Nat
deriving DecidableEq

/-- An index entry: embedding, chunk text and metadata, keyed by id. -/
structure Entry where
  embedding : List ℚ
  document : Str
  metadata : Meta
deriving DecidableEq

abbrev Store := List (Str × Entry)

/-- Modelled from the spec: the Vector Index contract "upsert(ids,
vectors, documents, metadatas): adds or overwrites entries by id". The
store itself (chromadb) is an external collaborator, not code of this
repository; its add-or-overwrite-by-id behaviour is taken from the
spec. -/
def upsert (store : Store) (id : Str) (e : Entry) : Store :=
  if store.any (fun p => p.1 == id) then
    store.map (fun p => if p.1 == id then (id, e) else p)
  else store ++ [(id, e)]

def upsertMany (store : Store) : List (Str × Entry) → Store
  | [] => store
  | p :: ps => upsertMany (upsert store p.1 p.2) ps

/-- Pair ids, embeddings, chunks and metadata positionally into entries,
as collection.add consumes its four parallel lists. -/
def mkEntries : List Str → List (List ℚ) → List Str → List Meta →
    List (Str × Entry)
  | id :: ids, v :: vs, c :: cs, m :: ms =>
    (id, ⟨v, c, m⟩) :: mkEntries ids vs cs ms
  | _, _, _, _ => []

/-- IndexingPipeline.store_in_database (embedding_pipeline.py lines
121-138; free variant lines 83-100): a no-op on empty input, otherwise
embeddings are generated and each chunk is stored under the id
md5hex(chunk) — a function of the chunk text alone. -/
def store_in_database (md5hex : Str → Str)
    (api : List Str → Option (List (List ℚ))) (store : Store)
    (chunks : List Str) (metadata : List Meta) : Store :=
  if chunks.isEmpty then store
  else
    upsertMany store
      (mkEntries (chunks.map md5hex) (generate_embeddings api chunks)
        chunks metadata)

lemma upsert_pos (st : Store) (id : Str) (e : Entry)
    (h : st.any (fun p => p.1 == id) = true) :
    upsert st id e = st.map (fun p => if p.1 == id then (id, e) else p) := by
  unfold upsert
  rw [if_pos h]

lemma upsert_neg (st : Store) (id : Str) (e : Entry)
    (h : st.any (fun p => p.1 == id) = false) :
    upsert st id e = st ++ [(id, e)] := by
  unfold upsert
  rw [if_neg (by rw [h]; exact Bool.false_ne_true)]

lemma map_upsert_id (id : Str) (e : Entry) :
    ∀ st : Store, st.any (fun p => p.1 == id) = false →
      st.map (fun p => if p.1 == id then (id, e) else p) = st := by
  intro st
  induction st with
  | nil => intro _; rfl
  | cons a t ih =>
    intro h
    rw [List.any_cons, Bool.or_eq_false_iff] at h
    rw [List.map_cons, if_neg (by rw [h.1]; exact Bool.false_ne_true), ih h.2]

/-- Upserting the same id twice keeps a single entry for that id, the
later write winning. -/
lemma upsert_upsert_same (st : Store) (id : Str) (e1 e2 : Entry) :
    upsert (upsert st id e1) id e2 = upsert st id e2 := by
  cases h : st.any (fun p => p.1 == id) with
  | true =>
    rw [upsert_pos st id e1 h, upsert_pos st id e2 h]
    have h2 : (st.map (fun p => if p.1 == id then (id, e1) else p)).any
        (fun p => p.1 == id) = true := by
      rw [List.any_eq_true] at h ⊢
      obtain ⟨p, hp, hpe⟩ := h
      exact ⟨(id, e1), List.mem_map.mpr ⟨p, hp, by rw [if_pos hpe]⟩, by simp⟩
    rw [upsert_pos _ id e2 h2, List.map_map]
    refine List.map_congr_left ?_
    intro p _
    by_cases hpe : p.1 == id
    · simp only [Function.comp_apply, if_pos hpe]
      rw [if_pos (by simp)]
    · simp only [Function.comp_apply, if_neg hpe]
  | false =>
    rw [upsert_neg st id e1 h, upsert_neg st id e2 h]
    have h2 : (st ++ [(id, e1)]).any (fun p => p.1 == id) = true := by
      rw [List.any_eq_true]
      exact ⟨(id, e1), by simp, by simp⟩
    rw [upsert_pos _ id e2 h2, List.map_append, map_upsert_id id e2 st h]
    have hlast : [(id, e1)].map (fun p => if p.1 == id then (id, e2) else p)
        = [(id, e2)] := by
      simp
    rw [hlast]

/-- After an upsert the key list is the old one when the id was present,
and gains exactly the new id at the end otherwise. -/
lemma upsert_keys (st : Store) (id : Str) (e : Entry) :
    (upsert st id e).map Prod.fst
      = if st.any (fun p => p.1 == id) then st.map Prod.fst
        else st.map Prod.fst ++ [id] := by
  by_cases h : st.any (fun p => p.1 == id) = true
  · rw [upsert_pos st id e h, if_pos h, List.map_map]
    refine List.map_congr_left ?_
    intro p _
    by_cases hpe : p.1 == id
    · simp only [Function.comp_apply, if_pos hpe]
      exact (beq_iff_eq.mp hpe).symm
    · simp only [Function.comp_apply, if_neg hpe]
  · have hf : st.any (fun p => p.1 == id) = false := by
      revert h
      cases st.any (fun p => p.1 == id) <;> simp
    rw [upsert_neg st id e hf, if_neg h, List.map_append]
    rfl

lemma generate_embeddings_single (api : List Str → Option (List (List ℚ)))
    (hapi : ∀ b vs, api b = some vs → vs.length = b.length) (c : Str) :
    ∃ v, generate_embeddings api [c] = [v] := by
  rw [generate_embeddings]
  cases h : api ([c].take 100) with
  | some vs =>
    have hlen : vs.length = 1 := by
      rw [hapi _ _ h]
      rfl
    obtain ⟨v, hv⟩ := List.length_eq_one.mp hlen
    refine ⟨v, ?_⟩
    rw [hv]
    show [v] ++ generate_embeddings api (List.drop 100 [c]) = [v]
    rw [show List.drop 100 [c] = ([] : List Str) from rfl, generate_embeddings,
      List.append_nil]
  | none =>
    refine ⟨zeroVec, ?_⟩
    show [zeroVec] ++ generate_embeddings api (List.drop 100 [c]) = [zeroVec]
    rw [show List.drop 100 [c] = ([] : List Str) from rfl, generate_embeddings,
      List.append_nil]

/-- C9: the id stored for a chunk is md5hex of the chunk text alone.
Storing the same chunk text twice — with different metadata, standing for
a different source document or ordinal position — produces the same id,
so the second store collapses onto the first: the store equals the one
obtained by the second write alone (last write wins), and the key set
gains md5hex(text) exactly once. -/
theorem store_id_content_hash (md5hex : Str → Str)
    (api : List Str → Option (List (List ℚ)))
    (hapi : ∀ b vs, api b = some vs → vs.length = b.length) :
    (∀ (st : Store) (c : Str) (m1 m2 : Meta),
        store_in_database md5hex api
          (store_in_database md5hex api st [c] [m1]) [c] [m2]
          = store_in_database md5hex api st [c] [m2]) ∧
    (∀ (st : Store) (c : Str) (m : Meta),
        (store_in_database md5hex api st [c] [m]).map Prod.fst
          = if st.any (fun p => p.1 == md5hex c) then st.map Prod.fst
            else st.map Prod.fst ++ [md5hex c]) := by
  obtain hsingle := generate_embeddings_single api hapi
  constructor
  · intro st c m1 m2
    obtain ⟨v, hv⟩ := hsingle c
    unfold store_in_database
    rw [if_neg (by simp), if_neg (by simp), if_neg (by simp), hv]
    show upsertMany (upsertMany st [(md5hex c, ⟨v, c, m1⟩)])
        [(md5hex c, ⟨v, c, m2⟩)] = upsertMany st [(md5hex c, ⟨v, c, m2⟩)]
    show upsert (upsert st (md5hex c) ⟨v, c, m1⟩) (md5hex c) ⟨v, c, m2⟩
        = upsert st (md5hex c) ⟨v, c, m2⟩
    exact upsert_upsert_same st (md5hex c) ⟨v, c, m1⟩ ⟨v, c, m2⟩
  · intro st c m
    obtain ⟨v, hv⟩ := hsingle c
    unfold store_in_database
    rw [if_neg (by simp), hv]
    show (upsert st (md5hex c) ⟨v, c, m⟩).map Prod.fst = _
    exact upsert_keys st (md5hex c) ⟨v, c, m⟩

def idApi : List Str → Option (List (List ℚ)) :=
  fun b => some (b.map fun _ => [0])

theorem store_id_content_hash_witness :
    store_in_database (fun s => s) idApi
        (store_in_database (fun s => s) idApi [] [lit "a"]
          [⟨lit "d1", lit "p1", 0, 1⟩])
        [lit "a"] [⟨lit "d2", lit "p2", 3, 7⟩]
      = store_in_database (fun s => s) idApi [] [lit "a"]
          [⟨lit "d2", lit "p2", 3, 7⟩] :=
  (store_id_content_hash (fun s => s) idApi
    (by intro b vs hv
        simp only [idApi, Option.some.injEq] at hv
        rw [← hv, List.length_map])).1
    [] (lit "a") ⟨lit "d1", lit "p1", 0, 1⟩ ⟨lit "d2", lit "p2", 3, 7⟩

/-- A loaded document as consumed by IndexingPipeline.run. -/
structure Document where
  file_path : Str
  content : Str
  file_name : Str

/-- The chunks of one document, at the default configuration
chunk_size = 1000, overlap = 200 (fuel len + 1 suffices by
chunk termination at this configuration). -/
def chunksOfDoc (doc : Document) : List Str :=
  (chunk_text doc.content 1000 200 (doc.content.length + 1)).getD []

/-- IndexingPipeline.run (embedding_pipeline.py lines 140-197; free
variant lines 102-159): with no loaded documents it returns
{documents_processed: 0, chunks_created: 0} before the
collection-clearing step, leaving the store untouched; otherwise it
chunks every document, best-effort clears the collection (rebuildOk false
models the swallowed delete failure) and stores all chunks. -/
def run (md5hex : Str → Str) (api : List Str → Option (List (List ℚ)))
    (rebuildOk : Bool) (documents : List Document) (store : Store) :
    (Nat × Nat) × Store :=
  if documents.isEmpty then ((0, 0), store)
  else
    let all_chunks := (documents.map chunksOfDoc).flatten
    let all_metadata := (documents.map fun doc =>
      (List.range (chunksOfDoc doc).length).map fun i =>
        (⟨doc.file_name, doc.file_path, i, (chunksOfDoc doc).length⟩ : Meta)).flatten
    let cleared := if rebuildOk then ([] : Store) else store
    ((documents.length, all_chunks.length),
      store_in_database md5hex api cleared all_chunks all_metadata)

/-- C10: a run over zero loadable documents returns
{documents_processed: 0, chunks_created: 0} and leaves every stored entry
unchanged — it returns before the collection-clearing step; and when at
least one document is found and the rebuild succeeds, the resulting store
does not depend on the prior store at all (full rebuild). -/
theorem run_empty_frame :
    (∀ (md5hex : Str → Str) (api : List Str → Option (List (List ℚ)))
        (rebuildOk : Bool) (store : Store),
        run md5hex api rebuildOk [] store = ((0, 0), store)) ∧
    (∀ md5hex api (d : Document) (ds : List Document) (store : Store),
        (run md5hex api true (d :: ds) store).2
          = (run md5hex api true (d :: ds) []).2) := by
  constructor
  · intro md5hex api rebuildOk store
    rfl
  · intro md5hex api d ds store
    rfl

end AiWikiSearch
